import Mathlib

/-!
Verification development for the Flux-Analyzer CSV pipeline (src/app.py).

The program is a linear data pipeline over a tabular dataset:
sanitize (drop all-missing rows, sentinel -9999 to missing) ->
column scope (columns up to "hbb") ->
time parse (strict "%Y-%m-%dT%H:%M:%SZ", coercing failures to missing) ->
axis numeric coercion (columns from "latitude" onward) ->
row filter (platform equality, drop missing on the chosen axes) ->
optional 15-minute resample when the x axis is "time" ->
z-score normalisation with outlier rejection at cutoff 3.

Numeric cells are modelled exactly over the rationals.  Missing values
(NaN / NaT) are a distinguished cell constructor, with the floating-point
comparison semantics the code relies on: NaN is unequal to everything
(including itself) and every ordered comparison against NaN is false.
The sample standard deviation sigma of a column is the square root of the
sample variance; since the code only ever tests sigma against 0, compares
the absolute z-score (v - mu) / sigma against the cutoff c, and stores the
z-scores, these are embedded exactly in the variance domain:
sigma is 0 iff the variance is 0, and for variance var > 0 and c >= 0,
the test (abs ((v - mu) / sqrt var) <= c) holds iff (v - mu)^2 <= c^2 * var.
A stored z-score is kept as the exact pair (v - mu, var), denoting the real
number (v - mu) / sqrt var.
-/

namespace FluxAnalyzer


/-- A wall-clock UTC timestamp as parsed from the time column. -/
structure Timestamp where
  year : ℕ
  month : ℕ
  day : ℕ
  hour : ℕ
  minute : ℕ
  second : ℕ
deriving DecidableEq, Repr

/-- Leap-year test of the Gregorian calendar. -/
def isLeap (y : ℕ) : Bool :=
  (y % 4 == 0 && y % 100 != 0) || y % 400 == 0

/-- Number of days of a month (1-12) in year y. -/
def daysInMonth (y m : ℕ) : ℕ :=
  if m = 2 then (if isLeap y then 29 else 28)
  else if m = 4 ∨ m = 6 ∨ m = 9 ∨ m = 11 then 30
  else 31

/-- Component validity of a timestamp (what a successful strict parse guarantees). -/
def Timestamp.valid (t : Timestamp) : Prop :=
  t.year ≤ 9999 ∧ 1 ≤ t.month ∧ t.month ≤ 12 ∧ 1 ≤ t.day ∧ t.day ≤ daysInMonth t.year t.month
    ∧ t.hour ≤ 23 ∧ t.minute ≤ 59 ∧ t.second ≤ 59

instance (t : Timestamp) : Decidable t.valid := by
  unfold Timestamp.valid
  infer_instance

/-- Numeric value of a decimal digit character. -/
def toDigit? (c : Char) : Option ℕ :=
  if c = '0' then some 0 else if c = '1' then some 1 else if c = '2' then some 2
  else if c = '3' then some 3 else if c = '4' then some 4 else if c = '5' then some 5
  else if c = '6' then some 6 else if c = '7' then some 7 else if c = '8' then some 8
  else if c = '9' then some 9 else none

/-- Four decimal digit characters as a number. -/
def digit4 (a b c d : Char) : Option ℕ :=
  match toDigit? a, toDigit? b, toDigit? c, toDigit? d with
  | some x, some y, some z, some w => some (1000 * x + 100 * y + 10 * z + w)
  | _, _, _, _ => none

/-- Range check performed at the end of a successful parse: the components
must form a real calendar date (datetime construction raises, and with
errors coerce yields missing, on day overflow such as February 30) and a
time of day. -/
def mkTimestamp (y mo da h mi s : ℕ) : Option Timestamp :=
  if 1 ≤ mo ∧ mo ≤ 12 ∧ 1 ≤ da ∧ da ≤ daysInMonth y mo ∧ h ≤ 23 ∧ mi ≤ 59 ∧ s ≤ 59 then
    some ⟨y, mo, da, h, mi, s⟩
  else none

/-- The %Y field of strptime: exactly four decimal digits. -/
def take4Digits : List Char → Option (ℕ × List Char)
  | c1 :: c2 :: c3 :: c4 :: rest =>
    match digit4 c1 c2 c3 c4 with
    | some v => some (v, rest)
    | none => none
  | _ => none

/-- A two-digit field of strptime (%m, %d, %H, %M, %S): one or two decimal
digits, leading zero optional - the field regexes accept the unpadded form.
Greedy: with a second digit present the one-digit reading would leave a
digit where the following literal separator is required, so taking both
digits loses no parse. -/
def take2Digits : List Char → Option (ℕ × List Char)
  | c1 :: c2 :: rest =>
    match toDigit? c1, toDigit? c2 with
    | some a, some b => some (10 * a + b, rest)
    | some a, none => some (a, c2 :: rest)
    | none, _ => none
  | [c1] => (toDigit? c1).map (fun a => (a, ([] : List Char)))
  | [] => none

/-- A literal character of the format string. -/
def takeLit (c : Char) : List Char → Option (List Char)
  | c0 :: rest => if c0 = c then some rest else none
  | [] => none

/-- Parse of the configured time format "%Y-%m-%dT%H:%M:%SZ" as strptime
performs it (pandas to_datetime with an explicit format runs the strptime
field regexes): a four digit year, then month, day, hour, minute and second
each of one or two digits (leading zeros optional), the literal separators,
nothing trailing, and calendar validation.  Any other string fails, and with
errors coerce a failure becomes missing rather than an exception. -/
def parseTime (s : String) : Option Timestamp := do
  let (yy, r1) ← take4Digits s.data
  let r2 ← takeLit '-' r1
  let (mo, r3) ← take2Digits r2
  let r4 ← takeLit '-' r3
  let (da, r5) ← take2Digits r4
  let r6 ← takeLit 'T' r5
  let (hh, r7) ← take2Digits r6
  let r8 ← takeLit ':' r7
  let (mi, r9) ← take2Digits r8
  let r10 ← takeLit ':' r9
  let (ss, r11) ← take2Digits r10
  let r12 ← takeLit 'Z' r11
  if r12 = [] then mkTimestamp yy mo da hh mi ss else none

/-- Mixed-radix chronological key of a timestamp.  On valid timestamps it is
injective and its order is the chronological order, because every component
is below its radix. -/
def toKey (t : Timestamp) : ℕ :=
  ((((t.year * 13 + t.month) * 32 + t.day) * 24 + t.hour) * 60 + t.minute) * 60 + t.second

/-- Inverse mixed-radix decoding of a chronological key. -/
def fromKey (k : ℕ) : Timestamp :=
  { year := k / 35942400
    month := k / 2764800 % 13
    day := k / 86400 % 32
    hour := k / 3600 % 24
    minute := k / 60 % 60
    second := k % 60 }

/-- Truncation of a timestamp to the enclosing 15-minute bucket boundary. -/
def truncTime (t : Timestamp) : Timestamp :=
  { t with minute := t.minute / 15 * 15, second := 0 }

/-- Value of a nonempty string of decimal digits, most significant first. -/
def digitsToNat? (cs : List Char) : Option ℕ :=
  cs.foldl (fun acc c =>
    match acc, toDigit? c with
    | some n, some d => some (10 * n + d)
    | _, _ => none) (if cs.isEmpty then none else some 0)

/-- Decimal literal without sign: digits, optionally with a fractional part. -/
def parseUnsigned (cs : List Char) : Option ℚ :=
  match cs.splitOn '.' with
  | [ip] => (digitsToNat? ip).map (fun n => (n : ℚ))
  | [ip, fp] =>
    match digitsToNat? ip, digitsToNat? fp with
    | some n, some f => some ((n : ℚ) + (f : ℚ) / (10 : ℚ) ^ fp.length)
    | _, _ => none
  | _ => none

/-- Model of the numeric coercion of a string cell (pd.to_numeric with
errors coerce): an optionally signed decimal literal parses, anything else
becomes missing. -/
def parseNumeric (s : String) : Option ℚ :=
  match s.data with
  | '-' :: rest => (parseUnsigned rest).map (fun q => -q)
  | cs => parseUnsigned cs

/-- A cell value of the dataset.  na is the missing marker (NaN / NaT / None);
num is an exact rational standing for a floating-point number; zval n v is the
exact z-score written back by the normaliser, denoting the real number
n / sqrt v. -/
inductive Val where
  | na
  | num (q : ℚ)
  | str (s : String)
  | time (t : Timestamp)
  | zval (n : ℚ) (v : ℚ)
deriving DecidableEq, Repr

/-- Missingness test (pandas isna). -/
def Val.isNA : Val → Bool
  | .na => true
  | _ => false

/-- Numeric view of a cell, used by mean and standard deviation, which skip
anything that is not a number. -/
def Val.toNum? : Val → Option ℚ
  | .num q => some q
  | _ => none

/-- Elementwise equality comparison as floating-point == behaves in the
filter step: missing compares unequal to everything, itself included, and
values of different kinds are unequal. -/
def Val.beq : Val → Val → Bool
  | .num a, .num b => a == b
  | .str a, .str b => a == b
  | .time a, .time b => a == b
  | _, _ => false

/-- A dataset: ordered column names and rows of cells, row i cell j belonging
to column j. -/
structure DF where
  cols : List String
  rows : List (List Val)
deriving DecidableEq, Repr

/-- Cell of a row at a position (missing when out of range). -/
def getCell : List Val → ℕ → Val
  | [], _ => .na
  | v :: _, 0 => v
  | _ :: r, n + 1 => getCell r n

/-- Replacement of the cell of a row at a position (identity when out of range). -/
def setCell : List Val → ℕ → Val → List Val
  | [], _, _ => []
  | _ :: r, 0, v => v :: r
  | w :: r, n + 1, v => w :: setCell r n v

/-- Index of the first column with the given name. -/
def colIdx : List String → String → Option ℕ
  | [], _ => none
  | c0 :: cs, c => if c0 = c then some 0 else (colIdx cs c).map (· + 1)

/-- Cell of a row under a column name (missing when the column is absent). -/
def cellAt (cols : List String) (r : List Val) (c : String) : Val :=
  match colIdx cols c with
  | some i => getCell r i
  | none => .na

/-- Pointwise update of a row at a column name. -/
def mapColRow (cols : List String) (r : List Val) (c : String) (f : Val → Val) : List Val :=
  match colIdx cols c with
  | some i => setCell r i (f (getCell r i))
  | none => r

/-- Columnwise update of a dataset (pandas df.loc assignment of a column). -/
def mapCol (d : DF) (c : String) (f : Val → Val) : DF :=
  ⟨d.cols, d.rows.map (fun r => mapColRow d.cols r c f)⟩

/-! ### Configuration constants (src/app.py lines 16-18) -/

/-- The no-data flag of the source files. -/
def SENTINEL : ℚ := -9999

/-- Outlier cutoff: rows with abs z above this are dropped. -/
def Z_OUTLIER_CUT : ℚ := 3

/-! ### Step 2: basic cleaning (line 36-37).
The code first drops rows whose every cell is missing, then replaces the
sentinel by missing - in that order. -/

/-- A row every cell of which is missing. -/
def rowAllNA (r : List Val) : Bool := r.all Val.isNA

/-- Sentinel cell to missing, any other cell untouched. -/
def replaceSentinel (v : Val) : Val :=
  if v = Val.num SENTINEL then Val.na else v

/-- Sanitizer: dropna(how = all) followed by replace(SENTINEL, NaN). -/
def sanitize (d : DF) : DF :=
  ⟨d.cols, (d.rows.filter (fun r => !rowAllNA r)).map (fun r => r.map replaceSentinel)⟩

/-! ### Step 3: trim columns up to "hbb" (lines 42-43). -/

/-- ColumnScoper: keep the columns up to and including "hbb" when present. -/
def scopeCols (d : DF) : DF :=
  match colIdx d.cols "hbb" with
  | some i => ⟨d.cols.take (i + 1), d.rows.map (fun r => r.take (i + 1))⟩
  | none => d

/-! ### Step 4: parse ISO-UTC time (lines 48-49). -/

/-- pd.to_datetime with the strict format and errors coerce, applied to one
cell: a matching string parses, anything else becomes missing. -/
def parseTimeCell (v : Val) : Val :=
  match v with
  | .str s => (parseTime s).elim Val.na Val.time
  | _ => .na

/-- TimeParser: parse the time column elementwise when it exists. -/
def parseTimes (d : DF) : DF :=
  if "time" ∈ d.cols then mapCol d "time" parseTimeCell else d

/-! ### Step 5: axis-eligible columns and numeric coercion (lines 54-60). -/

/-- Index of the "latitude" column, falling back to column 0 when absent. -/
def latIdx (cols : List String) : ℕ :=
  (colIdx cols "latitude").getD 0

/-- Axis-eligible columns: time first when present, then everything from the
latitude anchor to the end. -/
def axisCols (cols : List String) : List String :=
  if "time" ∈ cols then "time" :: cols.drop (latIdx cols) else cols.drop (latIdx cols)

/-- pd.to_numeric with errors coerce on one cell: numbers stay, numeric
strings parse, anything else becomes missing. -/
def toNumericCell (v : Val) : Val :=
  match v with
  | .num q => .num q
  | .str s => (parseNumeric s).elim Val.na Val.num
  | _ => .na

/-- One iteration of the coercion loops of lines 58-60 and 76-78: coerce the
column to numeric unless it is the time column. -/
def coerceAxisStep (acc : DF) (c : String) : DF :=
  if c = "time" then acc else mapCol acc c toNumericCell

/-- Numeric coercion of every non-time axis-eligible column. -/
def coerceAxes (d : DF) : DF :=
  (axisCols d.cols).foldl coerceAxisStep d

/-! ### Step 7: platform filter, axis re-coercion, dropna (lines 74-80). -/

/-- Line 74: keep the rows whose platform cell equals the chosen value. -/
def platformFilter (d : DF) (platform : Val) : DF :=
  ⟨d.cols, d.rows.filter (fun r => Val.beq (cellAt d.cols r "platform_name") platform)⟩

/-- Line 80: dropna on the two chosen axis columns. -/
def dropnaXY (d : DF) (x y : String) : DF :=
  ⟨d.cols, d.rows.filter (fun r => !(cellAt d.cols r x).isNA && !(cellAt d.cols r y).isNA)⟩

/-- RowFilter: select rows whose platform cell equals the chosen value, coerce
the two chosen axis columns to numeric, then drop rows missing on either. -/
def rowFilter (d : DF) (platform : Val) (x y : String) : DF :=
  dropnaXY ([x, y].foldl coerceAxisStep (platformFilter d platform)) x y

/-! ### Column statistics with pandas missing-value semantics. -/

/-- Mean of the numeric values of a column, skipping missing; missing (NaN)
when no value contributes. -/
def mean? (xs : List ℚ) : Option ℚ :=
  if xs.isEmpty then none else some (xs.sum / xs.length)

/-- Sample variance (ddof = 1) of the numeric values, skipping missing;
missing (NaN) when fewer than two values contribute.  The standard deviation
the code computes is its square root. -/
def varSamp? (xs : List ℚ) : Option ℚ :=
  if xs.length ≤ 1 then none
  else some ((xs.map (fun v => (v - ((mean? xs).getD 0)) ^ 2)).sum / (xs.length - 1 : ℕ))

/-- Numeric values of a column in row order. -/
def colNums (d : DF) (c : String) : List ℚ :=
  d.rows.filterMap (fun r => (cellAt d.cols r c).toNum?)

/-! ### Step 8: 15-minute resample when time is the x axis (lines 88-94). -/

/-- Timestamp of a row, when its time cell holds one. -/
def timeOf (cols : List String) (r : List Val) : Option Timestamp :=
  match cellAt cols r "time" with
  | .time t => some t
  | _ => none

/-- Bucketed points of the resampler: the chronological key of the truncated
timestamp of each row carrying one, together with its numeric y value. -/
def bucketPts (d : DF) (ycol : String) : List (ℕ × Option ℚ) :=
  d.rows.filterMap (fun r =>
    (timeOf d.cols r).map (fun t => (toKey (truncTime t), (cellAt d.cols r ycol).toNum?)))

/-- The distinct bucket keys in ascending chronological order. -/
def bucketKeys (d : DF) (ycol : String) : List ℕ :=
  (List.insertionSort (fun a b => a ≤ b) ((bucketPts d ycol).map Prod.fst)).dedup

/-- The non-missing y values whose timestamps fall in the bucket of key k. -/
def bucketYs (d : DF) (ycol : String) (k : ℕ) : List ℚ :=
  (bucketPts d ycol).filterMap (fun p => if p.1 = k then p.2 else none)

/-- Resampler: one row per bucket with a non-missing mean, in ascending
order, timestamp at the bucket start (set_index, resample 15T, mean, dropna,
reset_index). -/
def resample (d : DF) (ycol : String) : DF :=
  ⟨["time", ycol],
    (bucketKeys d ycol).filterMap (fun k =>
      (mean? (bucketYs d ycol k)).map (fun m => [Val.time (fromKey k), Val.num m]))⟩

/-! ### Step 9: z-score normalisation and outlier removal (lines 99-108). -/

/-- The test sigma != 0 of line 103: true when the standard deviation is a
number other than zero or is NaN (NaN != 0 holds in floating point). -/
def sigmaNZ (xs : List ℚ) : Bool := !(varSamp? xs == some 0)

/-- The test abs z <= c of line 105 for a row, where z = (v - mu) / sigma:
false whenever the cell, the mean or the deviation is missing (a comparison
against NaN), and otherwise the exact equivalent (v - mu)^2 <= c^2 * var of
abs ((v - mu) / sqrt var) <= c for c >= 0. -/
def keepRow (cellv : Val) (mu? var? : Option ℚ) (c : ℚ) : Bool :=
  match cellv.toNum?, mu?, var? with
  | some v, some mu, some var => decide ((v - mu) ^ 2 ≤ c ^ 2 * var)
  | _, _, _ => false

/-- The overwrite data[col] = (data[col] - mu) / sigma of line 106 on one
cell: the exact z-score pair, or missing when any operand is missing. -/
def zCell (cellv : Val) (mu? var? : Option ℚ) : Val :=
  match cellv.toNum?, mu?, var? with
  | some v, some mu, some var => Val.zval (v - mu) var
  | _, _, _ => Val.na

/-- One pass of the z-score loop over a single column: skip the time column;
when sigma != 0, reject rows with abs z above the cutoff, computed from the
mean and deviation of the incoming dataset, then overwrite the column with
its z-scores; when sigma == 0, set the whole column to 0.0 and reject
nothing. -/
def normalizePass (c : ℚ) (d : DF) (col : String) : DF :=
  if col = "time" then d
  else if sigmaNZ (colNums d col) then
    ⟨d.cols,
      (d.rows.filter (fun r =>
        keepRow (cellAt d.cols r col) (mean? (colNums d col)) (varSamp? (colNums d col)) c)).map
        (fun r => mapColRow d.cols r col
          (fun v => zCell v (mean? (colNums d col)) (varSamp? (colNums d col))))⟩
  else mapCol d col (fun _ => Val.num 0)

/-- The z-score loop for col in [x_axis, y_axis] of line 99: the x pass runs
first and its rejections shrink the dataset the y pass sees. -/
def normalizeAll (c : ℚ) (d : DF) (x y : String) : DF :=
  [x, y].foldl (normalizePass c) d

/-! ### The pipeline driver with its terminal states (steps 2-9). -/

/-- Terminal outcome of a pipeline run.  raised models an uncaught Python
exception (KeyError on a missing required column); noData is the
"No data left after filtering / NaN dropping." stop of line 82; allOutliers
is the "All rows removed as outliers." stop of line 111. -/
inductive Result where
  | raised (col : String)
  | noData
  | allOutliers
  | ok (d : DF)
deriving DecidableEq, Repr

/-- The dataset as it stands before the platform/axis selection (steps 2-5). -/
def preFilter (raw : DF) : DF :=
  coerceAxes (parseTimes (scopeCols (sanitize raw)))

/-- The dataset after the platform/axis filter (step 7). -/
def postFilter (raw : DF) (platform : Val) (x y : String) : DF :=
  rowFilter (preFilter raw) platform x y

/-- The dataset after the optional resample and the normaliser (steps 8-9). -/
def postNormalize (raw : DF) (platform : Val) (x y : String) : DF :=
  normalizeAll Z_OUTLIER_CUT
    (if x = "time" then resample (postFilter raw platform x y) y else postFilter raw platform x y)
    x y

/-- The emptiness check after the normaliser (lines 110-112). -/
def finalize (d : DF) : Result :=
  if d.rows.isEmpty then .allOutliers else .ok d

/-- The full pipeline on the raw dataset and the widget selections.  The
platform dropdown of line 65 reads the platform_name column before anything
else after step 5, and raises KeyError when it is absent. -/
def pipeline (raw : DF) (platform : Val) (x y : String) : Result :=
  if "platform_name" ∈ (preFilter raw).cols then
    if (postFilter raw platform x y).rows.isEmpty then .noData
    else finalize (postNormalize raw platform x y)
  else .raised "platform_name"

/-! ### Sequential coupling of the two normaliser passes -/

/-- A dataset exhibiting the difference between computing the y statistics
over the x survivors and over all rows: the twelfth row is an x outlier
(its squared z-score 121/12 exceeds 9) and carries the only nonzero y. -/
def seqDemoDF : DF :=
  ⟨["a", "b"], List.replicate 11 [Val.num 0, Val.num 0] ++ [[Val.num 12, Val.num 100]]⟩

/-! ### Post-normaliser bound -/

/-- The real number denoted by a stored z-score pair: n / sqrt var. -/
noncomputable def zdenote (n v : ℚ) : ℝ := (n : ℝ) / Real.sqrt (v : ℝ)

/-! ### Resampler -/

/-- The chronological key of an output row of the resampler (its leading
time cell). -/
def rowKeyOf (r : List Val) : ℕ :=
  match getCell r 0 with
  | .time t => toKey t
  | _ => 0

/-- Validity of every parsed timestamp of a dataset, in decidable form. -/
def timesValid (d : DF) : Prop :=
  ∀ r ∈ d.rows, (timeOf d.cols r).elim True Timestamp.valid

instance (o : Option Timestamp) : Decidable (o.elim True Timestamp.valid) :=
  match o with
  | none => .isTrue trivial
  | some t => inferInstanceAs (Decidable t.valid)

instance (d : DF) : Decidable (timesValid d) := by
  unfold timesValid
  infer_instance

/-- A concrete dataset with two 15-minute buckets for the resampler. -/
def resDemoDF : DF :=
  ⟨["time", "v"],
    [[Val.time ⟨2024, 4, 5, 13, 16, 0⟩, Val.num 1],
     [Val.time ⟨2024, 4, 5, 13, 2, 0⟩, Val.num 2],
     [Val.time ⟨2024, 4, 5, 13, 14, 0⟩, Val.num 4]]⟩

/-! ### Theorems -/

theorem toKey_fromKey (k : ℕ) : toKey (fromKey k) = k := by
  unfold toKey fromKey
  simp only
  omega

theorem fromKey_toKey (t : Timestamp) (hm : t.month ≤ 12) (hd : t.day ≤ 31) (hh : t.hour ≤ 23)
    (hmi : t.minute ≤ 59) (hs : t.second ≤ 59) : fromKey (toKey t) = t := by
  unfold toKey fromKey
  obtain ⟨y, mo, da, h, mi, s⟩ := t
  simp only [Timestamp.mk.injEq]
  simp only at hm hd hh hmi hs
  refine ⟨?_, ?_, ?_, ?_, ?_, ?_⟩ <;> omega

theorem truncTime_bounds (t : Timestamp) (hm : t.month ≤ 12) (hd : t.day ≤ 31)
    (hh : t.hour ≤ 23) (hmi : t.minute ≤ 59) :
    (truncTime t).month ≤ 12 ∧ (truncTime t).day ≤ 31 ∧ (truncTime t).hour ≤ 23
      ∧ (truncTime t).minute ≤ 59 ∧ (truncTime t).second ≤ 59 := by
  refine ⟨hm, hd, hh, ?_, ?_⟩
  · show t.minute / 15 * 15 ≤ 59
    omega
  · show (0 : ℕ) ≤ 59
    omega

theorem daysInMonth_le_31 (y m : ℕ) : daysInMonth y m ≤ 31 := by
  unfold daysInMonth
  split_ifs <;> omega

theorem length_setCell (r : List Val) (i : ℕ) (v : Val) : (setCell r i v).length = r.length := by
  induction r generalizing i with
  | nil => rfl
  | cons w r ih =>
    cases i with
    | zero => rfl
    | succ n => simpa [setCell] using ih n

theorem getCell_setCell_self (r : List Val) (i : ℕ) (v : Val) (h : i < r.length) :
    getCell (setCell r i v) i = v := by
  induction r generalizing i with
  | nil => simp at h
  | cons w r ih =>
    cases i with
    | zero => rfl
    | succ n => exact ih n (by simpa using h)

theorem getCell_setCell_ne (r : List Val) (i j : ℕ) (v : Val) (h : i ≠ j) :
    getCell (setCell r i v) j = getCell r j := by
  induction r generalizing i j with
  | nil => rfl
  | cons w r ih =>
    cases i with
    | zero => cases j with
      | zero => exact absurd rfl h
      | succ m => rfl
    | succ n => cases j with
      | zero => rfl
      | succ m => exact ih n m (by omega)

theorem setCell_oob (r : List Val) (i : ℕ) (v : Val) (h : r.length ≤ i) :
    setCell r i v = r := by
  induction r generalizing i with
  | nil => rfl
  | cons w r ih =>
    cases i with
    | zero => simp at h
    | succ n => simpa [setCell] using ih n (by simpa using h)

theorem colIdx_lt_length {cols : List String} {c : String} {i : ℕ} (h : colIdx cols c = some i) :
    i < cols.length := by
  induction cols generalizing i with
  | nil => exact absurd h (by simp [colIdx])
  | cons c0 cs ih =>
    unfold colIdx at h
    split at h
    · obtain rfl : 0 = i := by simpa using h
      simp
    · cases hi : colIdx cs c with
      | none => simp [hi] at h
      | some j =>
        rw [hi] at h
        obtain rfl : j + 1 = i := by simpa using h
        have := ih hi
        simp only [List.length_cons]
        omega

theorem colIdx_mem {cols : List String} {c : String} :
    c ∈ cols ↔ (colIdx cols c).isSome := by
  induction cols with
  | nil => simp [colIdx]
  | cons c0 cs ih =>
    unfold colIdx
    by_cases h : c0 = c
    · subst h
      simp
    · simp only [List.mem_cons, if_neg h]
      constructor
      · intro hmem
        rcases hmem with h1 | h2
        · exact absurd h1.symm h
        · simpa using ih.mp h2
      · intro hs
        right
        exact ih.mpr (by simpa using hs)

theorem colIdx_ne {cols : List String} {c1 c2 : String} {i j : ℕ} (hne : c1 ≠ c2)
    (h1 : colIdx cols c1 = some i) (h2 : colIdx cols c2 = some j) : i ≠ j := by
  induction cols generalizing i j with
  | nil => exact absurd h1 (by simp [colIdx])
  | cons c0 cs ih =>
    unfold colIdx at h1 h2
    by_cases h0 : c0 = c1
    · subst h0
      rw [if_pos rfl] at h1
      rw [if_neg hne] at h2
      obtain rfl : 0 = i := by simpa using h1
      cases hj : colIdx cs c2 with
      | none => simp [hj] at h2
      | some j2 =>
        rw [hj] at h2
        obtain rfl : j2 + 1 = j := by simpa using h2
        omega
    · rw [if_neg h0] at h1
      by_cases h0b : c0 = c2
      · subst h0b
        rw [if_pos rfl] at h2
        obtain rfl : 0 = j := by simpa using h2
        cases hi : colIdx cs c1 with
        | none => simp [hi] at h1
        | some i2 =>
          rw [hi] at h1
          obtain rfl : i2 + 1 = i := by simpa using h1
          omega
      · rw [if_neg h0b] at h2
        cases hi : colIdx cs c1 with
        | none => simp [hi] at h1
        | some i2 =>
          cases hj : colIdx cs c2 with
          | none => simp [hj] at h2
          | some j2 =>
            rw [hi] at h1
            rw [hj] at h2
            obtain rfl : i2 + 1 = i := by simpa using h1
            obtain rfl : j2 + 1 = j := by simpa using h2
            have := ih hi hj
            omega

/-- Updating one column leaves every other column of a row unchanged. -/
theorem cellAt_mapColRow_ne (cols : List String) (r : List Val) (c p : String) (f : Val → Val)
    (h : p ≠ c) : cellAt cols (mapColRow cols r c f) p = cellAt cols r p := by
  rcases hc : colIdx cols c with _ | i
  · simp [mapColRow, hc]
  · rcases hp : colIdx cols p with _ | j
    · simp [cellAt, hp]
    · simp only [mapColRow, cellAt, hc, hp]
      exact getCell_setCell_ne r i j _ (colIdx_ne (Ne.symm h) hc hp)

/-- Updating a column with a function that fixes the current cell leaves the
row unchanged at that column. -/
theorem cellAt_mapColRow_fixed (cols : List String) (r : List Val) (c : String) (f : Val → Val)
    (h : f (cellAt cols r c) = cellAt cols r c) :
    cellAt cols (mapColRow cols r c f) c = cellAt cols r c := by
  rcases hc : colIdx cols c with _ | i
  · simp [mapColRow, hc]
  · simp only [mapColRow, cellAt, hc] at h ⊢
    by_cases hlen : i < r.length
    · rw [getCell_setCell_self r i _ hlen, h]
    · rw [setCell_oob r i _ (by omega)]

/-- Updating a column of a row in range rewrites exactly that cell. -/
theorem cellAt_mapColRow_self (cols : List String) (r : List Val) (c : String) (f : Val → Val)
    {i : ℕ} (hc : colIdx cols c = some i) (hlen : i < r.length) :
    cellAt cols (mapColRow cols r c f) c = f (cellAt cols r c) := by
  simp only [mapColRow, cellAt, hc]
  exact getCell_setCell_self r i _ hlen

/-! ### Supporting lemmas -/

theorem varSamp?_short {xs : List ℚ} (h : xs.length ≤ 1) : varSamp? xs = none := by
  simp [varSamp?, h]

theorem keepRow_var_none (v : Val) (m : Option ℚ) (c : ℚ) : keepRow v m none c = false := by
  unfold keepRow
  rcases v.toNum? with _ | q <;> rcases m with _ | mu <;> rfl

theorem normalizePass_rows_nil (c : ℚ) (d : DF) (col : String) (h : d.rows = []) :
    (normalizePass c d col).rows = [] := by
  unfold normalizePass
  split_ifs <;> simp [mapCol, h]

theorem normalizeAll_eq_two_passes (c : ℚ) (d : DF) (x y : String) :
    normalizeAll c d x y = normalizePass c (normalizePass c d x) y := rfl

/-- A pass over a non-time column of a dataset with at most one row rejects
everything: the sample deviation is missing, the branch for sigma != 0 is
taken, and the comparison of the missing z-score against the cutoff fails on
every row. -/
theorem normalizePass_short (c : ℚ) (d : DF) (col : String) (hcol : col ≠ "time")
    (hlen : d.rows.length ≤ 1) : (normalizePass c d col).rows = [] := by
  have hv : varSamp? (colNums d col) = none :=
    varSamp?_short (le_trans (List.length_filterMap_le _ _) hlen)
  unfold normalizePass
  rw [if_neg hcol, if_pos (by simp [sigmaNZ, hv])]
  simp only
  have hkeep : ∀ r ∈ d.rows,
      ¬(keepRow (cellAt d.cols r col) (mean? (colNums d col)) (varSamp? (colNums d col)) c
        = true) := by
    intro r hr
    rw [hv, keepRow_var_none]
    simp
  rw [List.filter_eq_nil_iff.mpr hkeep]
  rfl

/-! ### The claims -/

/-- C2, refutation at a concrete input: a row whose only cell is the sentinel
is not dropped by the dropna step (it is not missing yet), and the subsequent
sentinel replacement turns it into a row that is entirely missing, violating
the claimed postcondition that no such row survives the Sanitizer. -/
theorem C2_sanitizer_counterexample :
    (sanitize ⟨["a"], [[Val.num (-9999)]]⟩).rows = [[Val.na]]
      ∧ rowAllNA [Val.na] = true := by
  decide

/-- C2 as amended: after the Sanitizer the sentinel value never appears, and
every surviving row arises from a raw row that was not entirely missing by
replacing its sentinel cells with missing; rows of the raw input that were
entirely missing never survive.  (The original claim fails because the drop
of all-missing rows runs before sentinel replacement, so a row whose
non-missing cells are all sentinels survives as an all-missing row.) -/
theorem C2_sanitizer_amended (d : DF) :
    ∀ r ∈ (sanitize d).rows,
      (∀ v ∈ r, v ≠ Val.num SENTINEL)
        ∧ ∃ r0 ∈ d.rows, rowAllNA r0 = false ∧ r = r0.map replaceSentinel := by
  intro r hr
  unfold sanitize at hr
  simp only [List.mem_map, List.mem_filter] at hr
  obtain ⟨r0, ⟨hr0, hna⟩, rfl⟩ := hr
  refine ⟨?_, r0, hr0, by simpa using hna, rfl⟩
  intro v hv
  simp only [List.mem_map] at hv
  obtain ⟨w, hw, rfl⟩ := hv
  unfold replaceSentinel
  split_ifs with h
  · simp
  · exact h

theorem C2_sanitizer_amended_witness :
    (∀ v ∈ [Val.num 1], v ≠ Val.num SENTINEL)
      ∧ ∃ r0 ∈ [[Val.num 1]], rowAllNA r0 = false ∧ [Val.num 1] = r0.map replaceSentinel :=
  C2_sanitizer_amended ⟨["a"], [[Val.num 1]]⟩ [Val.num 1] (by decide)

/-- C7, refutation at a concrete input: on a dataset lacking the
platform_name column the run does not surface a handled configuration
error; it ends in the uncaught-exception state modelling the KeyError that
line 65 raises, contradicting the claim that a missing category column is
reported as a configuration error rather than an uncaught failure. -/
theorem C7_missing_platform_counterexample :
    pipeline ⟨["a"], [[Val.num 1]]⟩ Val.na "a" "a" = Result.raised "platform_name" := by
  decide

/-- C7 as amended: absence of the time column skips the parse stage and
absence of the boundary column skips the trim stage, with no failure;
absence of the anchor column degrades to anchoring the axis block at the
first column (a fallback, not a skip); but absence of the categorical
platform column ends the run in an uncaught KeyError, not in a handled
configuration-error report. -/
theorem C7_graceful_absent_columns :
    (∀ d : DF, "time" ∉ d.cols → parseTimes d = d)
      ∧ (∀ d : DF, "hbb" ∉ d.cols → scopeCols d = d)
      ∧ (∀ cols : List String, "latitude" ∉ cols → latIdx cols = 0)
      ∧ (∀ raw platform x y, "platform_name" ∉ (preFilter raw).cols →
          pipeline raw platform x y = Result.raised "platform_name") := by
  refine ⟨?_, ?_, ?_, ?_⟩
  · intro d h
    simp [parseTimes, h]
  · intro d h
    unfold scopeCols
    cases hc : colIdx d.cols "hbb" with
    | none => rfl
    | some i => exact absurd (colIdx_mem.mpr (by simp [hc])) h
  · intro cols h
    unfold latIdx
    cases hc : colIdx cols "latitude" with
    | none => rfl
    | some i => exact absurd (colIdx_mem.mpr (by simp [hc])) h
  · intro raw p x y h
    simp [pipeline, h]

theorem C7_graceful_absent_columns_witness :
    parseTimes ⟨["a"], []⟩ = ⟨["a"], []⟩
      ∧ scopeCols ⟨["a"], []⟩ = ⟨["a"], []⟩
      ∧ latIdx ["a"] = 0
      ∧ pipeline ⟨["a"], [[Val.num 1]]⟩ Val.na "a" "a" = Result.raised "platform_name" :=
  ⟨C7_graceful_absent_columns.1 _ (by decide),
   C7_graceful_absent_columns.2.1 _ (by decide),
   C7_graceful_absent_columns.2.2.1 _ (by decide),
   C7_graceful_absent_columns.2.2.2 _ _ _ _ (by decide)⟩

/-- C8: the two empty terminal states are distinguishable and never
conflated: a run reports noData exactly when the dataset is empty right
after the category/axis filter (the pipeline stops there, before the
normaliser), and reports allOutliers exactly when the filter left rows but
the normaliser removed them all; the two reports are distinct values. -/
theorem C8_distinct_empty_states (raw : DF) (platform : Val) (x y : String)
    (h : "platform_name" ∈ (preFilter raw).cols) :
    (pipeline raw platform x y = Result.noData
        ↔ (postFilter raw platform x y).rows = [])
      ∧ (pipeline raw platform x y = Result.allOutliers
        ↔ (postFilter raw platform x y).rows ≠ [] ∧ (postNormalize raw platform x y).rows = [])
      ∧ Result.noData ≠ Result.allOutliers := by
  unfold pipeline finalize
  rw [if_pos h]
  by_cases he : (postFilter raw platform x y).rows.isEmpty
  · rw [if_pos he]
    rw [List.isEmpty_iff] at he
    simp [he]
  · rw [if_neg he]
    rw [List.isEmpty_iff] at he
    by_cases hn : (postNormalize raw platform x y).rows.isEmpty
    · rw [if_pos hn]
      rw [List.isEmpty_iff] at hn
      simp [he, hn]
    · rw [if_neg hn]
      rw [List.isEmpty_iff] at hn
      simp [he, hn]

theorem C8_distinct_empty_states_witness :
    (pipeline ⟨["platform_name"], [[Val.str "A"]]⟩ (Val.str "A") "platform_name" "platform_name"
        = Result.noData
      ↔ (postFilter ⟨["platform_name"], [[Val.str "A"]]⟩ (Val.str "A") "platform_name"
          "platform_name").rows = [])
      ∧ (pipeline ⟨["platform_name"], [[Val.str "A"]]⟩ (Val.str "A") "platform_name"
          "platform_name" = Result.allOutliers
        ↔ (postFilter ⟨["platform_name"], [[Val.str "A"]]⟩ (Val.str "A") "platform_name"
            "platform_name").rows ≠ []
          ∧ (postNormalize ⟨["platform_name"], [[Val.str "A"]]⟩ (Val.str "A") "platform_name"
              "platform_name").rows = [])
      ∧ Result.noData ≠ Result.allOutliers :=
  C8_distinct_empty_states ⟨["platform_name"], [[Val.str "A"]]⟩ (Val.str "A") "platform_name"
    "platform_name" (by decide)

/-- C10: when exactly one row reaches the normaliser and an axis column other
than time is processed, the sample deviation over at most one value is
missing, the zero-variance branch is not taken (NaN != 0 holds), the
missing z-score fails the cutoff comparison on every row, and the run ends
in the all-rows-removed-as-outliers state - a single-row dataset never
survives normalisation. -/
theorem C10_single_row_all_outliers (c : ℚ) (d : DF) (x y : String)
    (hlen : d.rows.length = 1) (hxy : x ≠ "time" ∨ y ≠ "time") :
    (∀ xs : List ℚ, xs.length ≤ 1 → varSamp? xs = none)
      ∧ (normalizeAll c d x y).rows = []
      ∧ finalize (normalizeAll c d x y) = Result.allOutliers := by
  have hmain : (normalizeAll c d x y).rows = [] := by
    rw [normalizeAll_eq_two_passes]
    by_cases hx : x = "time"
    · have hy : y ≠ "time" := by
        rcases hxy with h | h
        · exact absurd hx h
        · exact h
      have h1 : normalizePass c d x = d := by
        unfold normalizePass
        rw [if_pos hx]
      rw [h1]
      exact normalizePass_short c d y hy (by omega)
    · have h1 : (normalizePass c d x).rows = [] :=
        normalizePass_short c d x hx (by omega)
      exact normalizePass_rows_nil c _ y h1
  exact ⟨fun xs hxs => varSamp?_short hxs, hmain, by simp [finalize, hmain]⟩

theorem C10_single_row_all_outliers_witness :
    (∀ xs : List ℚ, xs.length ≤ 1 → varSamp? xs = none)
      ∧ (normalizeAll 3 ⟨["a"], [[Val.num 5]]⟩ "a" "a").rows = []
      ∧ finalize (normalizeAll 3 ⟨["a"], [[Val.num 5]]⟩ "a" "a") = Result.allOutliers :=
  C10_single_row_all_outliers 3 ⟨["a"], [[Val.num 5]]⟩ "a" "a" (by decide)
    (Or.inl (by decide))

/-! ### Statistics of constant columns -/

theorem mean?_replicate (n : ℕ) (a : ℚ) (hn : n ≠ 0) :
    mean? (List.replicate n a) = some a := by
  unfold mean?
  rw [if_neg (by simp [List.isEmpty_iff, hn])]
  rw [List.sum_replicate, List.length_replicate, nsmul_eq_mul]
  rw [mul_div_cancel_left₀ a (Nat.cast_ne_zero.mpr hn)]

theorem varSamp?_replicate (n : ℕ) (a : ℚ) (h : 2 ≤ n) :
    varSamp? (List.replicate n a) = some 0 := by
  unfold varSamp?
  rw [if_neg (by simp; omega)]
  have hm : mean? (List.replicate n a) = some a := mean?_replicate n a (by omega)
  simp [hm]

theorem varSamp?_allEq {xs : List ℚ} (h2 : 2 ≤ xs.length)
    (ha : ∀ b ∈ xs, ∀ b2 ∈ xs, b = b2) : varSamp? xs = some 0 := by
  rcases xs with _ | ⟨a, rest⟩
  · simp at h2
  · have hrep : a :: rest = List.replicate (a :: rest).length a :=
      List.eq_replicate_of_mem (fun b hb => ha b hb a (by simp))
    exact (congrArg varSamp? hrep).trans (varSamp?_replicate _ _ h2)

/-- C3: a non-time axis column whose contributing values all equal each other
with at least two of them has sample deviation exactly zero, so the
normaliser takes the constant-column branch: no row is rejected on that
column's account (the row count is preserved) and every output cell of the
column is exactly 0.0, whatever the cutoff (it is never consulted). -/
theorem C3_zero_variance (c : ℚ) (d : DF) (col : String) (hcol : col ≠ "time")
    (hmem : col ∈ d.cols) (hrect : ∀ r ∈ d.rows, r.length = d.cols.length)
    (h2 : 2 ≤ (colNums d col).length)
    (ha : ∀ b ∈ colNums d col, ∀ b2 ∈ colNums d col, b = b2) :
    varSamp? (colNums d col) = some 0
      ∧ (normalizePass c d col).rows.length = d.rows.length
      ∧ ∀ r ∈ (normalizePass c d col).rows, cellAt d.cols r col = Val.num 0 := by
  have hvar : varSamp? (colNums d col) = some 0 := varSamp?_allEq h2 ha
  have hb : ¬(sigmaNZ (colNums d col) = true) := by simp [sigmaNZ, hvar]
  have hi : ∃ i, colIdx d.cols col = some i := by
    have hsome := colIdx_mem.mp hmem
    rcases h : colIdx d.cols col with _ | i
    · rw [h] at hsome
      simp at hsome
    · exact ⟨i, rfl⟩
  obtain ⟨i, hi⟩ := hi
  refine ⟨hvar, ?_, ?_⟩
  · unfold normalizePass
    rw [if_neg hcol, if_neg hb]
    simp [mapCol]
  · intro r hr
    unfold normalizePass at hr
    rw [if_neg hcol, if_neg hb] at hr
    simp only [mapCol, List.mem_map] at hr
    obtain ⟨r0, hr0, rfl⟩ := hr
    rw [cellAt_mapColRow_self d.cols r0 col _ hi
      (by rw [hrect r0 hr0]; exact colIdx_lt_length hi)]

theorem C3_zero_variance_witness :
    varSamp? (colNums ⟨["a"], [[Val.num 5], [Val.num 5]]⟩ "a") = some 0
      ∧ (normalizePass (-7) ⟨["a"], [[Val.num 5], [Val.num 5]]⟩ "a").rows.length
          = (DF.mk ["a"] [[Val.num 5], [Val.num 5]]).rows.length :=
  ⟨(C3_zero_variance (-7) ⟨["a"], [[Val.num 5], [Val.num 5]]⟩ "a" (by decide) (by decide)
      (by decide) (by decide) (by decide)).1,
   (C3_zero_variance (-7) ⟨["a"], [[Val.num 5], [Val.num 5]]⟩ "a" (by decide) (by decide)
      (by decide) (by decide) (by decide)).2.1⟩

/-- C1: the z-score loop runs the x pass first and the y pass second on the
x pass's output; in the rejecting branch the x pass keeps exactly the rows
passing the outlier test computed from the incoming dataset's statistics
(original rows minus the rejected ones); consequently the y values the
second pass computes its mean and deviation over are exactly the y values of
the x survivors - and on a concrete dataset these statistics differ from
the ones over all original rows, so the coupling is not vacuous. -/
theorem C1_sequential_coupling (c : ℚ) (d : DF) (x y : String) (hxy : x ≠ y)
    (hx : x ≠ "time") (hσ : sigmaNZ (colNums d x) = true) :
    normalizeAll c d x y = normalizePass c (normalizePass c d x) y
      ∧ (normalizePass c d x).rows
          = (d.rows.filter (fun r =>
              keepRow (cellAt d.cols r x) (mean? (colNums d x)) (varSamp? (colNums d x)) c)).map
              (fun r => mapColRow d.cols r x
                (fun v => zCell v (mean? (colNums d x)) (varSamp? (colNums d x))))
      ∧ colNums (normalizePass c d x) y
          = (d.rows.filter (fun r =>
              keepRow (cellAt d.cols r x) (mean? (colNums d x)) (varSamp? (colNums d x)) c)).filterMap
              (fun r => (cellAt d.cols r y).toNum?)
      ∧ mean? (colNums (normalizePass 3 seqDemoDF "a") "b") ≠ mean? (colNums seqDemoDF "b")
      ∧ varSamp? (colNums (normalizePass 3 seqDemoDF "a") "b") ≠ varSamp? (colNums seqDemoDF "b") := by
  have hpass : normalizePass c d x
      = ⟨d.cols, (d.rows.filter (fun r =>
          keepRow (cellAt d.cols r x) (mean? (colNums d x)) (varSamp? (colNums d x)) c)).map
          (fun r => mapColRow d.cols r x
            (fun v => zCell v (mean? (colNums d x)) (varSamp? (colNums d x))))⟩ := by
    unfold normalizePass
    rw [if_neg hx, if_pos hσ]
  refine ⟨rfl, by rw [hpass], ?_, by with_unfolding_all decide, by with_unfolding_all decide⟩
  rw [hpass]
  unfold colNums
  simp only
  rw [List.filterMap_map]
  apply congrArg (fun f => List.filterMap f _)
  funext r
  show (cellAt d.cols (mapColRow d.cols r x _) y).toNum? = (cellAt d.cols r y).toNum?
  rw [cellAt_mapColRow_ne d.cols r x y _ (Ne.symm hxy)]

theorem C1_sequential_coupling_witness :
    normalizeAll 3 ⟨["a", "b"], [[Val.num 0, Val.num 1], [Val.num 1, Val.num 2],
        [Val.num 2, Val.num 3]]⟩ "a" "b"
      = normalizePass 3 (normalizePass 3 ⟨["a", "b"], [[Val.num 0, Val.num 1],
          [Val.num 1, Val.num 2], [Val.num 2, Val.num 3]]⟩ "a") "b"
      ∧ mean? (colNums (normalizePass 3 seqDemoDF "a") "b") ≠ mean? (colNums seqDemoDF "b") :=
  ⟨(C1_sequential_coupling 3 ⟨["a", "b"], [[Val.num 0, Val.num 1], [Val.num 1, Val.num 2],
      [Val.num 2, Val.num 3]]⟩ "a" "b" (by decide) (by decide)
      (by with_unfolding_all decide)).1,
   (C1_sequential_coupling 3 ⟨["a", "b"], [[Val.num 0, Val.num 1], [Val.num 1, Val.num 2],
      [Val.num 2, Val.num 3]]⟩ "a" "b" (by decide) (by decide)
      (by with_unfolding_all decide)).2.2.2.1⟩

/-! ### RowFilter postcondition -/

theorem coerceAxisStep_cols (d : DF) (c : String) : (coerceAxisStep d c).cols = d.cols := by
  unfold coerceAxisStep
  split_ifs <;> rfl

/-- The coercion step preserves both the platform-equality of every row and
the stability of the platform cell under numeric coercion. -/
theorem coerceAxisStep_inv (cols : List String) (d : DF) (c : String) (platform : Val)
    (hcols : d.cols = cols)
    (hinv : ∀ r ∈ d.rows, Val.beq (cellAt cols r "platform_name") platform = true
      ∧ toNumericCell (cellAt cols r "platform_name") = cellAt cols r "platform_name") :
    ∀ r ∈ (coerceAxisStep d c).rows,
      Val.beq (cellAt cols r "platform_name") platform = true
        ∧ toNumericCell (cellAt cols r "platform_name") = cellAt cols r "platform_name" := by
  subst hcols
  intro r hr
  unfold coerceAxisStep at hr
  split_ifs at hr with ht
  · exact hinv r hr
  · simp only [mapCol, List.mem_map] at hr
    obtain ⟨r0, hr0, rfl⟩ := hr
    obtain ⟨hbq, hfix⟩ := hinv r0 hr0
    by_cases hc : "platform_name" = c
    · subst hc
      rw [cellAt_mapColRow_fixed _ _ _ _ hfix]
      exact ⟨hbq, hfix⟩
    · rw [cellAt_mapColRow_ne _ _ _ _ _ hc]
      exact ⟨hbq, hfix⟩

/-- The coercion step at a column other than the platform column preserves
the platform-equality of every row. -/
theorem coerceAxisStep_other (cols : List String) (d : DF) (c : String) (platform : Val)
    (hcols : d.cols = cols) (hne : "platform_name" ≠ c)
    (hinv : ∀ r ∈ d.rows, Val.beq (cellAt cols r "platform_name") platform = true) :
    ∀ r ∈ (coerceAxisStep d c).rows,
      Val.beq (cellAt cols r "platform_name") platform = true := by
  subst hcols
  intro r hr
  unfold coerceAxisStep at hr
  split_ifs at hr with ht
  · exact hinv r hr
  · simp only [mapCol, List.mem_map] at hr
    obtain ⟨r0, hr0, rfl⟩ := hr
    rw [cellAt_mapColRow_ne _ _ _ _ _ hne]
    exact hinv r0 hr0

/-- C6: every row accepted by the RowFilter has its platform cell equal to
the chosen value and is not missing on either chosen axis column.  The
stability hypothesis records that, whenever the platform column itself is
chosen as an axis, its cells are already fixed points of numeric coercion -
which holds for the pipeline's input to this stage, because an axis-eligible
platform column was already coerced by step 5. -/
theorem C6_rowfilter (d : DF) (platform : Val) (x y : String)
    (hstab : x = "platform_name" ∨ y = "platform_name" →
      ∀ r ∈ d.rows, toNumericCell (cellAt d.cols r "platform_name")
        = cellAt d.cols r "platform_name") :
    ∀ r ∈ (rowFilter d platform x y).rows,
      Val.beq (cellAt d.cols r "platform_name") platform = true
        ∧ (cellAt d.cols r x).isNA = false
        ∧ (cellAt d.cols r y).isNA = false := by
  intro r hr
  unfold rowFilter at hr
  simp only [List.foldl_cons, List.foldl_nil] at hr
  have hc1 : (platformFilter d platform).cols = d.cols := rfl
  have hc2 : (coerceAxisStep (platformFilter d platform) x).cols = d.cols :=
    (coerceAxisStep_cols _ _).trans hc1
  have hc3 : (coerceAxisStep (coerceAxisStep (platformFilter d platform) x) y).cols = d.cols :=
    (coerceAxisStep_cols _ _).trans hc2
  unfold dropnaXY at hr
  rw [List.mem_filter] at hr
  obtain ⟨hrmem, hcond⟩ := hr
  rw [hc3] at hcond
  simp only [Bool.and_eq_true, Bool.not_eq_true'] at hcond
  refine ⟨?_, hcond.1, hcond.2⟩
  have hbase : ∀ r ∈ (platformFilter d platform).rows,
      Val.beq (cellAt d.cols r "platform_name") platform = true := by
    intro r hrr
    unfold platformFilter at hrr
    rw [List.mem_filter] at hrr
    exact hrr.2
  by_cases hpq : x = "platform_name" ∨ y = "platform_name"
  · have hfix := hstab hpq
    have hbase2 : ∀ r ∈ (platformFilter d platform).rows,
        Val.beq (cellAt d.cols r "platform_name") platform = true
          ∧ toNumericCell (cellAt d.cols r "platform_name")
            = cellAt d.cols r "platform_name" := by
      intro r hrr
      have hmem : r ∈ d.rows := by
        unfold platformFilter at hrr
        rw [List.mem_filter] at hrr
        exact hrr.1
      exact ⟨hbase r hrr, hfix r hmem⟩
    have h2 := coerceAxisStep_inv d.cols (platformFilter d platform) x platform hc1 hbase2
    have h3 := coerceAxisStep_inv d.cols (coerceAxisStep (platformFilter d platform) x) y
      platform hc2 h2
    exact (h3 r hrmem).1
  · push_neg at hpq
    have h2 := coerceAxisStep_other d.cols (platformFilter d platform) x platform hc1
      (fun hx => hpq.1 hx.symm) hbase
    have h3 := coerceAxisStep_other d.cols (coerceAxisStep (platformFilter d platform) x) y
      platform hc2 (fun hy => hpq.2 hy.symm) h2
    exact h3 r hrmem

theorem C6_rowfilter_witness :
    Val.beq (cellAt ["platform_name", "a", "b"] [Val.str "A", Val.num 1, Val.num 2]
        "platform_name") (Val.str "A") = true
      ∧ (cellAt ["platform_name", "a", "b"] [Val.str "A", Val.num 1, Val.num 2] "a").isNA = false
      ∧ (cellAt ["platform_name", "a", "b"] [Val.str "A", Val.num 1, Val.num 2] "b").isNA
          = false :=
  C6_rowfilter ⟨["platform_name", "a", "b"],
      [[Val.str "A", Val.num 1, Val.num 2], [Val.str "B", Val.num 3, Val.na]]⟩
    (Val.str "A") "a" "b" (by decide) [Val.str "A", Val.num 1, Val.num 2] (by decide)

theorem varSamp?_nonneg {xs : List ℚ} {v : ℚ} (h : varSamp? xs = some v) : 0 ≤ v := by
  unfold varSamp? at h
  split_ifs at h
  obtain rfl : _ = v := by
    injection h
  apply div_nonneg
  · apply List.sum_nonneg
    intro q hq
    simp only [List.mem_map] at hq
    obtain ⟨w, hw, rfl⟩ := hq
    positivity
  · positivity

theorem zdenote_abs_le {n v c : ℚ} (hc : 0 ≤ c) (hv : 0 ≤ v)
    (hsq : n ^ 2 ≤ c ^ 2 * v) : |zdenote n v| ≤ (c : ℝ) := by
  unfold zdenote
  rw [abs_div, abs_of_nonneg (Real.sqrt_nonneg _)]
  rcases eq_or_lt_of_le hv with h0 | hpos
  · have hz : ((v : ℝ)) = 0 := by exact_mod_cast h0.symm
    rw [hz, Real.sqrt_zero, div_zero]
    exact_mod_cast hc
  · have hvr : (0 : ℝ) < (v : ℝ) := by exact_mod_cast hpos
    have hs : 0 < Real.sqrt (v : ℝ) := Real.sqrt_pos.mpr hvr
    rw [div_le_iff₀ hs]
    have h1 : Real.sqrt (v : ℝ) ^ 2 = (v : ℝ) := Real.sq_sqrt (le_of_lt hvr)
    have h2 : ((n : ℝ)) ^ 2 ≤ (c : ℝ) ^ 2 * (v : ℝ) := by exact_mod_cast hsq
    have hcr : (0 : ℝ) ≤ (c : ℝ) := by exact_mod_cast hc
    nlinarith [sq_abs ((n : ℝ)), abs_nonneg ((n : ℝ)), Real.sqrt_nonneg ((v : ℝ)),
      mul_nonneg hcr (le_of_lt hs), sq_nonneg ((c : ℝ) * Real.sqrt (v : ℝ) - |(n : ℝ)|)]

theorem keepRow_true {cellv : Val} {mu? var? : Option ℚ} {c : ℚ}
    (h : keepRow cellv mu? var? c = true) :
    ∃ v mu var, cellv.toNum? = some v ∧ mu? = some mu ∧ var? = some var
      ∧ (v - mu) ^ 2 ≤ c ^ 2 * var := by
  unfold keepRow at h
  rcases hv : cellv.toNum? with _ | v <;> rcases hmu : mu? with _ | mu <;>
      rcases hvar : var? with _ | var <;> rw [hv, hmu, hvar] at h <;> simp at h
  exact ⟨v, mu, var, rfl, rfl, rfl, h⟩

theorem zCell_eq {cellv : Val} {mu? var? : Option ℚ} {v mu var : ℚ}
    (hv : cellv.toNum? = some v) (hm : mu? = some mu) (hva : var? = some var) :
    zCell cellv mu? var? = Val.zval (v - mu) var := by
  unfold zCell
  rw [hv, hm, hva]

theorem mapColRow_length (cols : List String) (r : List Val) (c : String) (f : Val → Val) :
    (mapColRow cols r c f).length = r.length := by
  rcases hc : colIdx cols c with _ | i <;> simp only [mapColRow, hc]
  exact length_setCell r i _

theorem normalizePass_cols (c : ℚ) (d : DF) (col : String) :
    (normalizePass c d col).cols = d.cols := by
  unfold normalizePass
  split_ifs <;> rfl

/-- Membership in the rejecting branch of a pass: every output row is an
input row that passed the outlier test, with the column overwritten by its
z-score. -/
theorem normalizePass_mem {c : ℚ} {d : DF} {col : String} (hcol : col ≠ "time")
    (hσ : sigmaNZ (colNums d col) = true) {r : List Val}
    (hr : r ∈ (normalizePass c d col).rows) :
    ∃ r0 ∈ d.rows,
      keepRow (cellAt d.cols r0 col) (mean? (colNums d col)) (varSamp? (colNums d col)) c = true
        ∧ r = mapColRow d.cols r0 col
            (fun v => zCell v (mean? (colNums d col)) (varSamp? (colNums d col))) := by
  unfold normalizePass at hr
  rw [if_neg hcol, if_pos hσ] at hr
  simp only [List.mem_map, List.mem_filter] at hr
  obtain ⟨r0, ⟨h1, h2⟩, rfl⟩ := hr
  exact ⟨r0, h1, h2, rfl⟩

theorem colIdx_of_mem {cols : List String} {col : String} (h : col ∈ cols) :
    ∃ i, colIdx cols col = some i := by
  have hsome := colIdx_mem.mp h
  rcases hc : colIdx cols col with _ | i
  · rw [hc] at hsome
    simp at hsome
  · exact ⟨i, rfl⟩

/-- Every output row of a pass stems from an input row of the same length,
with every column other than the processed one unchanged (the pass filters
rows and rewrites only its own column). -/
theorem normalizePass_mem_any {c : ℚ} {d : DF} {col : String} {r : List Val}
    (hr : r ∈ (normalizePass c d col).rows) :
    ∃ r0 ∈ d.rows, r.length = r0.length
      ∧ ∀ p, p ≠ col → cellAt d.cols r p = cellAt d.cols r0 p := by
  unfold normalizePass at hr
  split_ifs at hr with ht hσ
  · exact ⟨r, hr, rfl, fun p hp => rfl⟩
  · simp only [List.mem_map, List.mem_filter] at hr
    obtain ⟨r0, ⟨h1, h2⟩, rfl⟩ := hr
    exact ⟨r0, h1, mapColRow_length _ _ _ _, fun p hp => cellAt_mapColRow_ne _ _ _ _ _ hp⟩
  · simp only [mapCol, List.mem_map] at hr
    obtain ⟨r0, h1, rfl⟩ := hr
    exact ⟨r0, h1, mapColRow_length _ _ _ _, fun p hp => cellAt_mapColRow_ne _ _ _ _ _ hp⟩

/-- A pass preserves rectangularity of the dataset. -/
theorem normalizePass_rect {c : ℚ} {d : DF} {col : String}
    (hrect : ∀ r ∈ d.rows, r.length = d.cols.length) :
    ∀ r ∈ (normalizePass c d col).rows, r.length = d.cols.length := by
  intro r hr
  obtain ⟨r0, hr0, hlen, _⟩ := normalizePass_mem_any hr
  rw [hlen]
  exact hrect r0 hr0

/-- The single-pass bound: when the pass on a non-time column sees a nonzero
variance, every row it keeps holds in that column a stored z-score whose
denoted real value has absolute value at most the cutoff. -/
theorem normalizePass_bound {c : ℚ} {d : DF} {col : String} {v : ℚ}
    (hc : 0 ≤ c) (hcol : col ≠ "time") (hmem : col ∈ d.cols)
    (hrect : ∀ r ∈ d.rows, r.length = d.cols.length)
    (hv : varSamp? (colNums d col) = some v) (hv0 : v ≠ 0) :
    ∀ r ∈ (normalizePass c d col).rows,
      ∃ n, cellAt d.cols r col = Val.zval n v ∧ |zdenote n v| ≤ (c : ℝ) := by
  intro r hr
  have hσ : sigmaNZ (colNums d col) = true := by simp [sigmaNZ, hv, hv0]
  obtain ⟨r0, hr0, hkeep, rfl⟩ := normalizePass_mem hcol hσ hr
  obtain ⟨i, hi⟩ := colIdx_of_mem hmem
  have hlen : i < r0.length := by
    rw [hrect r0 hr0]
    exact colIdx_lt_length hi
  obtain ⟨w, mu, var, hw, hm, hva, hsq⟩ := keepRow_true hkeep
  rw [hv] at hva
  obtain rfl : var = v := by injection hva.symm
  rw [cellAt_mapColRow_self d.cols r0 col _ hi hlen]
  exact ⟨w - mu, zCell_eq hw hm (hv.trans rfl), zdenote_abs_le hc (varSamp?_nonneg hv) hsq⟩

/-- C4: after the normaliser, whichever non-time axis column saw a nonzero
variance in its own pass holds stored z-scores (of that pass's variance),
not raw values, and the real number each denotes has absolute value at most
the cutoff.  This covers the resample path (x the time column, whose pass is
skipped, only y normalised) and mixed configurations where only one of the
two columns has nonzero variance; the y pass's variance is the one over the
x survivors, per the sequential coupling.  The two axis columns are assumed
distinct (the spec leaves the degenerate x = y selection open). -/
theorem C4_post_normalizer_bound (c : ℚ) (d : DF) (x y : String)
    (hc : 0 ≤ c) (hxy : x ≠ y)
    (hrect : ∀ r ∈ d.rows, r.length = d.cols.length) :
    ∀ r ∈ (normalizeAll c d x y).rows,
      (∀ vx, x ≠ "time" → x ∈ d.cols → varSamp? (colNums d x) = some vx → vx ≠ 0 →
        ∃ n, cellAt d.cols r x = Val.zval n vx ∧ |zdenote n vx| ≤ (c : ℝ))
        ∧ (∀ vy, y ≠ "time" → y ∈ d.cols →
            varSamp? (colNums (normalizePass c d x) y) = some vy → vy ≠ 0 →
            ∃ n, cellAt d.cols r y = Val.zval n vy ∧ |zdenote n vy| ≤ (c : ℝ)) := by
  intro r hr
  rw [normalizeAll_eq_two_passes] at hr
  have hcols1 : (normalizePass c d x).cols = d.cols := normalizePass_cols c d x
  constructor
  · intro vx hx hxm hvx hvx0
    obtain ⟨r1, hr1, _, hp⟩ := normalizePass_mem_any hr
    have hxcell := hp x hxy
    rw [hcols1] at hxcell
    rw [hxcell]
    exact normalizePass_bound hc hx hxm hrect hvx hvx0 r1 hr1
  · intro vy hy hym hvy hvy0
    have hym1 : y ∈ (normalizePass c d x).cols := by
      rw [hcols1]
      exact hym
    have hrect1 : ∀ r2 ∈ (normalizePass c d x).rows,
        r2.length = (normalizePass c d x).cols.length := by
      intro r2 hr2
      rw [hcols1]
      exact normalizePass_rect hrect r2 hr2
    have hb := normalizePass_bound hc hy hym1 hrect1 hvy hvy0 r hr
    rw [hcols1] at hb
    exact hb

set_option maxRecDepth 8000 in
theorem C4_post_normalizer_bound_witness :
    ((∃ n, cellAt ["a", "b"] [Val.zval (-1) 1, Val.zval (-1) 1] "a" = Val.zval n 1
        ∧ |zdenote n 1| ≤ ((3 : ℚ) : ℝ))
      ∧ (∃ n, cellAt ["a", "b"] [Val.zval (-1) 1, Val.zval (-1) 1] "b" = Val.zval n 1
        ∧ |zdenote n 1| ≤ ((3 : ℚ) : ℝ)))
      ∧ (∃ n, cellAt ["time", "b"]
            [Val.time ⟨2024, 4, 5, 13, 0, 0⟩, Val.zval (-1) 1] "b" = Val.zval n 1
        ∧ |zdenote n 1| ≤ ((3 : ℚ) : ℝ)) :=
  ⟨⟨(C4_post_normalizer_bound 3 ⟨["a", "b"], [[Val.num 0, Val.num 1], [Val.num 1, Val.num 2],
        [Val.num 2, Val.num 3]]⟩ "a" "b" (by with_unfolding_all decide) (by decide) (by decide)
        [Val.zval (-1) 1, Val.zval (-1) 1] (by with_unfolding_all decide)).1 1
      (by decide) (by decide) (by with_unfolding_all decide) (by with_unfolding_all decide),
    (C4_post_normalizer_bound 3 ⟨["a", "b"], [[Val.num 0, Val.num 1], [Val.num 1, Val.num 2],
        [Val.num 2, Val.num 3]]⟩ "a" "b" (by with_unfolding_all decide) (by decide) (by decide)
        [Val.zval (-1) 1, Val.zval (-1) 1] (by with_unfolding_all decide)).2 1
      (by decide) (by decide) (by with_unfolding_all decide) (by with_unfolding_all decide)⟩,
   (C4_post_normalizer_bound 3 ⟨["time", "b"],
        [[Val.time ⟨2024, 4, 5, 13, 0, 0⟩, Val.num 1],
         [Val.time ⟨2024, 4, 5, 13, 20, 0⟩, Val.num 2],
         [Val.time ⟨2024, 4, 5, 13, 40, 0⟩, Val.num 3]]⟩ "time" "b"
        (by with_unfolding_all decide) (by decide) (by decide)
        [Val.time ⟨2024, 4, 5, 13, 0, 0⟩, Val.zval (-1) 1] (by with_unfolding_all decide)).2 1
      (by decide) (by decide) (by with_unfolding_all decide) (by with_unfolding_all decide)⟩

theorem pairwise_filterMap_lt {α : Type} (g : ℕ → Option α) (key : α → ℕ)
    (hg : ∀ k r, g k = some r → key r = k) :
    ∀ ks : List ℕ, List.Pairwise (fun a b => a < b) ks →
      List.Pairwise (fun r1 r2 => key r1 < key r2) (ks.filterMap g) := by
  intro ks hks
  induction ks with
  | nil => simp
  | cons k ks ih =>
    rw [List.pairwise_cons] at hks
    obtain ⟨hhead, htail⟩ := hks
    rw [List.filterMap_cons]
    cases hk : g k with
    | none => exact ih htail
    | some r =>
      rw [List.pairwise_cons]
      refine ⟨?_, ih htail⟩
      intro r2 hr2
      rw [List.mem_filterMap] at hr2
      obtain ⟨k2, hk2, hgk2⟩ := hr2
      rw [hg k r hk, hg k2 r2 hgk2]
      exact hhead k2 hk2

theorem bucketKeys_sorted (d : DF) (ycol : String) :
    List.Pairwise (fun a b => a < b) (bucketKeys d ycol) := by
  unfold bucketKeys
  have hs : List.Pairwise (fun a b : ℕ => a ≤ b)
      (List.insertionSort (fun a b => a ≤ b) ((bucketPts d ycol).map Prod.fst)) :=
    List.sorted_insertionSort _ _
  have hd : List.Pairwise (fun a b : ℕ => a ≤ b)
      (List.insertionSort (fun a b => a ≤ b) ((bucketPts d ycol).map Prod.fst)).dedup :=
    hs.sublist (List.dedup_sublist _)
  have hn : (List.insertionSort (fun a b => a ≤ b)
      ((bucketPts d ycol).map Prod.fst)).dedup.Nodup :=
    List.nodup_dedup _
  exact (hd.and hn).imp (fun hab => lt_of_le_of_ne hab.1 hab.2)

theorem mem_bucketKeys {d : DF} {ycol : String} {k : ℕ} :
    k ∈ bucketKeys d ycol ↔ k ∈ (bucketPts d ycol).map Prod.fst := by
  unfold bucketKeys
  rw [List.mem_dedup, List.mem_insertionSort]

/-- C5: with the time column holding valid parsed timestamps, the resampler
emits rows with strictly increasing bucket keys (no duplicate bucket
starts); every output row is a bucket start (the 15-minute truncation of a
source timestamp) paired with the mean of exactly the non-missing source y
values falling in that bucket, buckets without contributing values being
dropped; conversely every bucket with source rows and a non-missing mean
yields an output row; and the values of a bucket are exactly the numeric y
cells of the source rows whose truncated timestamp keys that bucket. -/
theorem C5_resampler (d : DF) (ycol : String) (hvalid : timesValid d) :
    List.Pairwise (fun r1 r2 => rowKeyOf r1 < rowKeyOf r2) (resample d ycol).rows
      ∧ (∀ r ∈ (resample d ycol).rows, ∃ k m,
          r = [Val.time (fromKey k), Val.num m]
            ∧ mean? (bucketYs d ycol k) = some m
            ∧ bucketYs d ycol k ≠ []
            ∧ ∃ r0 ∈ d.rows, ∃ t0, timeOf d.cols r0 = some t0
                ∧ fromKey k = truncTime t0 ∧ k = toKey (truncTime t0))
      ∧ (∀ k m, mean? (bucketYs d ycol k) = some m →
          k ∈ (bucketPts d ycol).map Prod.fst →
          [Val.time (fromKey k), Val.num m] ∈ (resample d ycol).rows)
      ∧ (∀ k, bucketYs d ycol k
          = d.rows.filterMap (fun r =>
              match timeOf d.cols r with
              | some t =>
                if toKey (truncTime t) = k then (cellAt d.cols r ycol).toNum? else none
              | none => none)) := by
  have hg : ∀ (k : ℕ) (r : List Val),
      ((mean? (bucketYs d ycol k)).map (fun m => [Val.time (fromKey k), Val.num m])) = some r →
        rowKeyOf r = k := by
    intro k r hr
    cases hm : mean? (bucketYs d ycol k) with
    | none =>
      rw [hm] at hr
      simp at hr
    | some m =>
      rw [hm] at hr
      obtain rfl : [Val.time (fromKey k), Val.num m] = r := by simpa using hr
      simpa [rowKeyOf, getCell] using toKey_fromKey k
  refine ⟨?_, ?_, ?_, ?_⟩
  · exact pairwise_filterMap_lt _ rowKeyOf hg _ (bucketKeys_sorted d ycol)
  · intro r hr
    unfold resample at hr
    simp only at hr
    rw [List.mem_filterMap] at hr
    obtain ⟨k, hk, hgk⟩ := hr
    cases hm : mean? (bucketYs d ycol k) with
    | none =>
      rw [hm] at hgk
      simp at hgk
    | some m =>
      rw [hm] at hgk
      obtain rfl : [Val.time (fromKey k), Val.num m] = r := by simpa using hgk
      refine ⟨k, m, rfl, hm, ?_, ?_⟩
      · intro hnil
        rw [hnil] at hm
        simp [mean?] at hm
      · have hk2 : k ∈ (bucketPts d ycol).map Prod.fst := mem_bucketKeys.mp hk
        rw [List.mem_map] at hk2
        obtain ⟨p, hp, hfst⟩ := hk2
        unfold bucketPts at hp
        rw [List.mem_filterMap] at hp
        obtain ⟨r0, hr0, hpr⟩ := hp
        cases ht : timeOf d.cols r0 with
        | none =>
          rw [ht] at hpr
          simp at hpr
        | some t0 =>
          rw [ht] at hpr
          obtain rfl : (toKey (truncTime t0), (cellAt d.cols r0 ycol).toNum?) = p := by
            simpa using hpr
          obtain rfl : toKey (truncTime t0) = k := hfst
          have hval : t0.valid := by
            have hv := hvalid r0 hr0
            rw [ht] at hv
            exact hv
          obtain ⟨hy9, hm1, hm12, hd1, hdm, hh23, hmi, hs⟩ := hval
          have hb := truncTime_bounds t0 hm12 (le_trans hdm (daysInMonth_le_31 _ _)) hh23 hmi
          exact ⟨r0, hr0, t0, ht,
            fromKey_toKey (truncTime t0) hb.1 hb.2.1 hb.2.2.1 hb.2.2.2.1 hb.2.2.2.2, rfl⟩
  · intro k m hm hk
    unfold resample
    simp only
    rw [List.mem_filterMap]
    exact ⟨k, mem_bucketKeys.mpr hk, by rw [hm]; rfl⟩
  · intro k
    unfold bucketYs bucketPts
    rw [List.filterMap_filterMap]
    congr 1
    funext r
    cases ht : timeOf d.cols r with
    | none => simp
    | some t => simp

theorem C5_resampler_witness :
    List.Pairwise (fun r1 r2 => rowKeyOf r1 < rowKeyOf r2) (resample resDemoDF "v").rows :=
  (C5_resampler resDemoDF "v" (by decide)).1

end FluxAnalyzer
